import Mathlib

/-!
Shallow embedding of the `sagevision` repository's algorithmic core
(keyframe selection, scene detection, pipeline orchestration), together
with theorems checking the natural-language specification against it.

Numeric values that the Python code holds as floats are embedded as
rationals (`ℚ`); Python lists become Lean `List`s; a Python function that
may raise becomes a function into `Except String _`.
-/

namespace SageVision

/-! ## Keyframe selector (`sagevision/keyframe_selector/selector.py`)

`KeyframeSelector._farthest_point_sampling` and `KeyframeSelector.select`
operate on the matrix of (already L2-normalized) CLIP embeddings; the
embedding computation itself is an external model call, so the matrix is
the input of the embedded functions, one row per frame. -/

/-- Dot product of two embedding rows (`np.dot` on equal-length vectors). -/
def dot (a b : List ℚ) : ℚ :=
  (List.zipWith (· * ·) a b).sum

/-- Tail of `np.argmax`: scan the remaining entries, keeping the index of
the first occurrence of the running maximum (`>` so that ties keep the
earlier, i.e. lower, index). -/
def argmaxGo : List ℚ → ℕ → ℕ → ℚ → ℕ
  | [], _, best, _ => best
  | x :: xs, i, best, bv =>
      if bv < x then argmaxGo xs (i + 1) i x else argmaxGo xs (i + 1) best bv

/-- `np.argmax`: index of the first occurrence of the maximum entry. -/
def argmax (l : List ℚ) : ℕ :=
  match l with
  | [] => 0
  | x :: xs => argmaxGo xs 1 0 x

/-- The loop `for _ in range(1, k)` of `_farthest_point_sampling`, with
`t` iterations left: pick `argmax` of the min-distance array, append it,
and take the pointwise minimum with the distances to the new point. -/
def fpsIter (embs : List (List ℚ)) : ℕ → List ℕ → List ℚ → List ℕ
  | 0, selected, _ => selected
  | t + 1, selected, minDists =>
      let idx := argmax minDists
      let dists := embs.map (fun e => 1 - dot e (embs.getD idx []))
      fpsIter embs t (selected ++ [idx]) (List.zipWith min minDists dists)

/-- `KeyframeSelector._farthest_point_sampling(embs, k)`. -/
def farthestPointSampling (embs : List (List ℚ)) (k : ℕ) : List ℕ :=
  let n := embs.length
  if n ≤ k then List.range n
  else
    fpsIter embs (k - 1) [0] (embs.map (fun e => 1 - dot e (embs.getD 0 [])))

/-- The default keyframe count used by `select` when `n_keyframes` is not
configured: `max(1, min(5, n // max(1, n // 5)))`. -/
def defaultK (n : ℕ) : ℕ :=
  max 1 (min 5 (n / max 1 (n / 5)))

/-- `KeyframeSelector.select(frames)` on the embedding rows of the frames
(one row per frame, `n = len(frames)`).  `nKeyframes = none` models
`n_keyframes is None`; `some 0` is falsy in Python's `or`, hence also
falls back to the default count. -/
def select (nKeyframes : Option ℕ) (embs : List (List ℚ)) : List ℕ :=
  let n := embs.length
  if n = 0 then []
  else
    let k := match nKeyframes with
      | none => defaultK n
      | some k0 => if k0 = 0 then defaultK n else k0
    let k := min k n
    (farthestPointSampling embs k).insertionSort (· ≤ ·)

/-! ## Scene detector (`sagevision/scene_detector/detector.py`)

`SceneDetector.detect_scenes` first converts every frame to a histogram
(an external image operation) and then scans adjacent histogram pairs; the
embedded function takes the per-frame histogram list as input. -/

/-- Chi-square distance of two adjacent histograms:
`0.5 * Σ (h1ᵢ - h2ᵢ)² / denomᵢ` where `denomᵢ = h1ᵢ + h2ᵢ`, with `1.0`
substituted wherever the denominator is zero (`denom[denom == 0] = 1.0`). -/
def chiSq (h1 h2 : List ℚ) : ℚ :=
  (1 / 2) *
    (List.zipWith
      (fun a b => (a - b) ^ 2 / (if a + b = 0 then 1 else a + b)) h1 h2).sum

/-- The loop `for i in range(1, n)` of `detect_scenes`: the list still to
scan starts at frame `i - 1`, `last` is the last recorded boundary. -/
def detectGo (θ : ℚ) (msl : ℕ) : List (List ℚ) → ℕ → ℕ → List ℕ
  | h1 :: h2 :: rest, i, last =>
      if θ ≤ chiSq h1 h2 ∧ msl ≤ i - last then
        i :: detectGo θ msl (h2 :: rest) (i + 1) i
      else
        detectGo θ msl (h2 :: rest) (i + 1) last
  | _, _, _ => []

/-- `SceneDetector.detect_scenes` on the per-frame histograms (`θ` is the
`threshold` field, `msl` the `min_scene_len` field). -/
def detect_scenes (θ : ℚ) (msl : ℕ) (hists : List (List ℚ)) : List ℕ :=
  match hists with
  | [] => []
  | _ => 0 :: detectGo θ msl hists 1 0

/-- The `SceneDetector` constructor clamps `min_scene_len` to
`max(1, int(min_scene_len))`. -/
def mkMinSceneLen (m : ℤ) : ℕ :=
  (max 1 m).toNat

/-! ## Pipeline (`sagevision/pipeline/pipeline.py`)

`Pipeline.run` composes the collaborators.  A collaborator call that may
raise is a function into `Except String _`; `Except.error` in the final
result means the corresponding Python exception propagates out of `run`
uncaught.  Events are the `(stage, percent, message)` triples passed to
`_cb`; the run result also carries the emitted trace. -/

/-- A progress event `(stage, percent, message)` as handed to `_cb`. -/
abbrev Event := String × ℚ × String

/-- A progress callback; it may raise (`Except.error`). -/
abbrev Callback := Event → Except String Unit

/-- The collaborator behaviours `Pipeline.run` interacts with, over an
opaque frame type `F`: whether the video source opens, the decoded frame
list, and the (possibly raising) scene detector, keyframe selector,
captioner and summarizer calls. -/
structure Env (F : Type) where
  openOk : Bool
  frames : List F
  detect : List F → Except String (List ℕ)
  selectIdx : List F → Except String (List ℕ)
  captionBatch : List F → Except String (List String)
  summarize : List String → Except String String

/-- `_cb` (pipeline.py lines 31-37): if a callback is present, invoke it
and swallow any error it raises; never fails itself. -/
def emit (cb : Option Callback) (ev : Event) : Except String Unit :=
  match cb with
  | none => Except.ok ()
  | some f =>
      match f ev with
      | Except.ok _ => Except.ok ()
      | Except.error _ => Except.ok ()

/-- Sequence one `_cb` call before the rest of the run: the event is
recorded in the trace, and (were `_cb` able to fail) a failure would abort
the continuation. -/
def emitThen {α : Type} (cb : Option Callback) (ev : Event)
    (rest : List Event × Except String α) : List Event × Except String α :=
  match emit cb ev with
  | Except.ok _ => (ev :: rest.1, rest.2)
  | Except.error e => ([ev], Except.error e)

/-- The frame slice `frames[start:end]` of one scene, where `end` is the
next boundary if one exists and `len(frames)` otherwise. -/
def sceneSlice {F : Type} (frames : List F) (start : ℕ) (rest : List ℕ) : List F :=
  (frames.drop start).take
    ((match rest with
      | [] => frames.length
      | next :: _ => next) - start)

/-- The keyframe indices for one scene: the selector's result, or the
first-frame fallback `[0]` when the selector raises (pipeline.py lines
75-79). -/
def selKeys {F : Type} (env : Env F) (sf : List F) : List ℕ :=
  match env.selectIdx sf with
  | Except.ok ks => ks
  | Except.error _ => [0]

/-- Lines 80-84 for a non-empty scene slice `sf` (head `f0`): index the
slice at each selected position (an out-of-range position raises
`IndexError`), caption the keyframes, and summarize the captions.  Any
captioner or summarizer exception propagates (no `try` around them). -/
def procScene {F : Type} (env : Env F) (sf : List F) (f0 : F) :
    Except String String :=
  if (selKeys env sf).all (fun j => decide (j < sf.length)) then
    match env.captionBatch ((selKeys env sf).map (fun j => sf.getD j f0)) with
    | Except.error e => Except.error e
    | Except.ok captions => env.summarize captions
  else Except.error "IndexError: list index out of range"

/-- The per-scene loop of `Pipeline.run` (lines 64-86), processing the
boundary suffix that starts at enumeration index `i`; `T` is
`total_scenes`.  Returns the emitted events and either the collected
scene-summary list or the first uncaught exception. -/
def scenesGo {F : Type} (env : Env F) (cb : Option Callback) (frames : List F)
    (T : ℕ) : ℕ → List ℕ → List Event × Except String (List String)
  | _, [] => ([], Except.ok [])
  | i, start :: rest =>
      let pb : ℚ := (i : ℚ) / (T : ℚ)
      let ps : ℚ := 1 / (T : ℚ)
      let evStart : Event :=
        ("scene_" ++ toString i ++ "_start", pb,
          "scene " ++ toString i ++ " starting at frame " ++ toString start)
      match sceneSlice frames start rest with
      | [] =>
          let evDone : Event := ("scene_" ++ toString i ++ "_done", pb + ps, "empty scene")
          emitThen cb evStart (emitThen cb evDone (scenesGo env cb frames T (i + 1) rest))
      | f0 :: tl =>
          match procScene env (f0 :: tl) f0 with
          | Except.error e => emitThen cb evStart ([], Except.error e)
          | Except.ok s =>
              let evDone : Event :=
                ("scene_" ++ toString i ++ "_done", pb + ps,
                  "scene " ++ toString i ++ " done")
              let r := scenesGo env cb frames T (i + 1) rest
              emitThen cb evStart (emitThen cb evDone
                (r.1, match r.2 with
                  | Except.ok ss => Except.ok (s :: ss)
                  | Except.error e => Except.error e))

/-- `Pipeline.run`, returning the trace of `_cb` events and either the
returned string (`Except.ok`) or the uncaught exception (`Except.error`).
`VideoParser.frames()` is a Python generator: the call inside the
`try` block only builds the iterator, so the `IOError` for an unopenable
source is raised where the iterator is first consumed — at
`frames = list(frames_iterator)`, outside any `try` — and the `except`
branch that would return `"[Pipeline error] failed to open video"` is
unreachable. -/
def pipelineRun {F : Type} (env : Env F) (cb : Option Callback) :
    List Event × Except String String :=
  emitThen cb ("parsing", 0, "opening video") (
    emitThen cb ("parsing", 1, "done") (
      emitThen cb ("scene_detection", 0, "collecting frames") (
        if env.openOk then
          match env.detect env.frames with
          | Except.error e =>
              emitThen cb ("scene_detection", 1, "failed: " ++ e)
                ([], Except.ok "[Pipeline error] scene detection failed")
          | Except.ok boundaries =>
              emitThen cb
                ("scene_detection", 1,
                  "found " ++ toString boundaries.length ++ " scene(s)") (
                let T := max 1 boundaries.length
                let r := scenesGo env cb env.frames T 0 boundaries
                match r.2 with
                | Except.error e => (r.1, Except.error e)
                | Except.ok summaries =>
                    let agg :=
                      emitThen cb ("aggregation", 0, "aggregating scene summaries") (
                        if summaries.isEmpty then
                          emitThen cb ("aggregation", 1, "no scenes")
                            ([], Except.ok "")
                        else
                          match env.summarize summaries with
                          | Except.error e => ([], Except.error e)
                          | Except.ok final =>
                              emitThen cb ("aggregation", 1, "done") (
                                emitThen cb ("finished", 1, "pipeline complete")
                                  ([], Except.ok final)))
                    (r.1 ++ agg.1, agg.2))
        else
          ([], Except.error "IOError: failed to open video source"))))

/-! ## Specification-side definitions

These follow the spec's wording, to be compared with the source-derived
definitions above. -/

/-- Minimum of a nonempty list of rationals (`0` for the empty list,
never used on it). -/
def listMinD : List ℚ → ℚ
  | [] => 0
  | x :: xs => xs.foldl min x

/-- The minimum cosine distance from point `j` to the already-selected
set `S`: `min over s in S of (1 - embs[j] · embs[s])`. -/
def minDistTo (embs : List (List ℚ)) (S : List ℕ) (j : ℕ) : ℚ :=
  listMinD (S.map (fun s => 1 - dot (embs.getD j []) (embs.getD s [])))

/-- The least candidate attaining the largest value of `f`, scanning the
candidate list left to right and replacing the current best only on a
strict improvement. -/
def pickLeastMax (f : ℕ → ℚ) : List ℕ → ℕ
  | [] => 0
  | c :: cs => cs.foldl (fun b j => if f b < f j then j else b) c

/-- The spec's description of the farthest-point iteration, amended to
range over all indices: `t` more times, pick the least index in `[0, n)`
whose minimum distance to the selected set is largest, and append it. -/
def fpsSpecGo (embs : List (List ℚ)) (n : ℕ) : ℕ → List ℕ → List ℕ
  | 0, S => S
  | t + 1, S =>
      let p := pickLeastMax (minDistTo embs S) (List.range n)
      fpsSpecGo embs n t (S ++ [p])

/-- The claim's description of the farthest-point iteration, verbatim:
the pick ranges only over the not-yet-selected indices. -/
def fpsClaimGo (embs : List (List ℚ)) (n : ℕ) : ℕ → List ℕ → List ℕ
  | 0, S => S
  | t + 1, S =>
      let p := pickLeastMax (minDistTo embs S)
        ((List.range n).filter (fun j => !(S.contains j)))
      fpsClaimGo embs n t (S ++ [p])

/-- The claim's farthest-point sampling for `1 ≤ k < n`: index `0` first,
then `k - 1` picks among the not-yet-selected indices. -/
def fpsClaim (embs : List (List ℚ)) (k : ℕ) : List ℕ :=
  fpsClaimGo embs embs.length (k - 1) [0]

/-- The spec's description of the scene-detection loop, written over the
index list `[1, n)` with `last` the last recorded boundary: record `i`
when `chi2(i-1, i) ≥ threshold` and `i - last ≥ min_scene_len`. -/
def detectSpecGo (θ : ℚ) (msl : ℕ) (hists : List (List ℚ)) :
    List ℕ → ℕ → List ℕ
  | [], _ => []
  | i :: is, last =>
      if θ ≤ chiSq (hists.getD (i - 1) []) (hists.getD i []) ∧ msl ≤ i - last then
        i :: detectSpecGo θ msl hists is i
      else
        detectSpecGo θ msl hists is last

/-- The spec's description of scene detection: the boundary `0` is always
emitted unconditionally, then the scan over indices `1..n-1`. -/
def detectSpec (θ : ℚ) (msl : ℕ) (hists : List (List ℚ)) : List ℕ :=
  if hists.length = 0 then []
  else 0 :: detectSpecGo θ msl hists (List.range' 1 (hists.length - 1)) 0

/-! ## Concrete environments used by witnesses and counterexamples -/

/-- A run whose video source cannot be opened; every collaborator besides
the source is well-behaved. -/
def envOpenFail : Env ℕ where
  openOk := false
  frames := []
  detect := fun _ => Except.ok []
  selectIdx := fun _ => Except.ok [0]
  captionBatch := fun fs => Except.ok (fs.map (fun _ => "c"))
  summarize := fun ss => Except.ok (ss.headD "")

/-- A run whose captioner raises on every batch; the video opens, two
frames are decoded, and scene detection finds the single scene `[0]`. -/
def envCaptionRaises : Env ℕ where
  openOk := true
  frames := [1, 2]
  detect := fun _ => Except.ok [0]
  selectIdx := fun _ => Except.ok [0]
  captionBatch := fun _ => Except.error "boom"
  summarize := fun ss => Except.ok (ss.headD "")

/-- A fully well-behaved run with zero decoded frames. -/
def envNoFrames : Env ℕ where
  openOk := true
  frames := []
  detect := fun _ => Except.ok [0]
  selectIdx := fun _ => Except.ok [0]
  captionBatch := fun fs => Except.ok (fs.map (fun _ => "c"))
  summarize := fun ss => Except.ok (ss.headD "")

/-- A fully well-behaved run: two frames, one scene, a selector that
returns no indices, a total captioner and summarizer. -/
def envAllOk : Env ℕ where
  openOk := true
  frames := [1, 2]
  detect := fun _ => Except.ok [0]
  selectIdx := fun _ => Except.ok []
  captionBatch := fun fs => Except.ok (fs.map (fun _ => "c"))
  summarize := fun ss => Except.ok (ss.headD "")

/-- The canonical `(stage, percent)` schedule of the scene-processing
stage for scenes `i0, …, i0+m-1` out of `T`: scene `i` starts at `i / T`
and completes at `(i + 1) / T`. -/
def scenePP (T i0 m : ℕ) : List (String × ℚ) :=
  (List.range' i0 m).flatMap (fun i =>
    [("scene_" ++ toString i ++ "_start", (i : ℚ) / (T : ℚ)),
     ("scene_" ++ toString i ++ "_done", ((i : ℚ) + 1) / (T : ℚ))])

/-! ## Selector lemmas -/

theorem argmaxGo_lt (f0 : ℚ) : ∀ (xs : List ℚ) (i best : ℕ) (bv : ℚ),
    best < i → argmaxGo xs i best bv < i + xs.length
  | [], i, best, bv, h => by simpa [argmaxGo] using h.trans_le (Nat.le_add_right i 0)
  | x :: xs, i, best, bv, h => by
      unfold argmaxGo
      simp only [List.length_cons]
      by_cases hc : bv < x
      · simp only [if_pos hc]
        have := argmaxGo_lt f0 xs (i + 1) i x (Nat.lt_succ_self i)
        omega
      · simp only [if_neg hc]
        have := argmaxGo_lt f0 xs (i + 1) best bv (by omega)
        omega

theorem argmax_lt (l : List ℚ) (h : l ≠ []) : argmax l < l.length := by
  match l with
  | x :: xs =>
      have := argmaxGo_lt 0 xs 1 0 x (by omega)
      simp only [argmax, List.length_cons]
      omega

theorem fpsIter_length (embs : List (List ℚ)) :
    ∀ (t : ℕ) (S : List ℕ) (m : List ℚ),
      (fpsIter embs t S m).length = S.length + t
  | 0, S, m => by simp [fpsIter]
  | t + 1, S, m => by
      simp only [fpsIter]
      rw [fpsIter_length embs t]
      simp
      omega

theorem fpsIter_mem_lt (embs : List (List ℚ)) :
    ∀ (t : ℕ) (S : List ℕ) (m : List ℚ),
      m.length = embs.length → 0 < embs.length →
      (∀ j ∈ S, j < embs.length) →
      ∀ j ∈ fpsIter embs t S m, j < embs.length
  | 0, S, m, hm, hn, hS => by simpa [fpsIter] using hS
  | t + 1, S, m, hm, hn, hS => by
      simp only [fpsIter]
      apply fpsIter_mem_lt embs t
      · simp [hm]
      · exact hn
      · intro j hj
        rcases List.mem_append.1 hj with hj | hj
        · exact hS j hj
        · have hm0 : m ≠ [] := by
            intro h
            rw [h] at hm
            simp at hm
            omega
          have := argmax_lt m hm0
          simp only [List.mem_singleton] at hj
          omega

theorem fps_length (embs : List (List ℚ)) (k : ℕ) (hk : 1 ≤ k) :
    (farthestPointSampling embs k).length = min k embs.length := by
  unfold farthestPointSampling
  by_cases h : embs.length ≤ k
  · simp [h, Nat.min_eq_right h]
  · simp only [if_neg h]
    rw [fpsIter_length]
    simp only [List.length_singleton]
    omega

theorem fps_mem_lt (embs : List (List ℚ)) (k : ℕ) :
    ∀ j ∈ farthestPointSampling embs k, j < embs.length := by
  unfold farthestPointSampling
  by_cases h : embs.length ≤ k
  · simp [h]
  · simp only [if_neg h]
    intro j hj
    apply fpsIter_mem_lt embs (k - 1) [0] _ (by simp) (by omega) _ j hj
    intro i hi
    simp only [List.mem_singleton] at hi
    omega

theorem fps_all (embs : List (List ℚ)) (k : ℕ) (h : embs.length ≤ k) :
    farthestPointSampling embs k = List.range embs.length := by
  simp [farthestPointSampling, h]

theorem select_some_eq (embs : List (List ℚ)) (k : ℕ) (hk : 1 ≤ k) :
    select (some k) embs =
      if embs.length = 0 then []
      else (farthestPointSampling embs (min k embs.length)).insertionSort (· ≤ ·) := by
  have hk0 : ¬ (k = 0) := by omega
  simp [select, hk0]

theorem select_none_eq (embs : List (List ℚ)) :
    select none embs =
      if embs.length = 0 then []
      else
        (farthestPointSampling embs
          (min (defaultK embs.length) embs.length)).insertionSort (· ≤ ·) := by
  simp [select]

theorem defaultK_pos (n : ℕ) : 1 ≤ defaultK n :=
  Nat.le_max_left 1 _

theorem select_length (embs : List (List ℚ)) (k : ℕ) (hk : 1 ≤ k) :
    (select (some k) embs).length = min k embs.length := by
  rw [select_some_eq embs k hk]
  by_cases hn : embs.length = 0
  · simp [hn]
  · rw [if_neg hn, List.length_insertionSort,
      fps_length embs (min k embs.length) (by omega)]
    omega

theorem select_none_length (embs : List (List ℚ)) (hn : 0 < embs.length) :
    (select none embs).length = min (defaultK embs.length) embs.length := by
  rw [select_none_eq embs, if_neg (by omega), List.length_insertionSort,
    fps_length embs _ (by have := defaultK_pos embs.length; omega)]
  have := defaultK_pos embs.length
  omega

/-! ## Claim theorems: keyframe selection contract (C3, C10) -/

/-- C3 (amended): for every embedding matrix and every `k ≥ 1`,
`select` returns exactly `min(k, n)` indices, sorted non-decreasingly and
each within `[0, n)`; when `k ≥ n` it returns `0..n-1` in order, and when
`n = 0` it returns the empty selection.  (The originally claimed
uniqueness fails when embeddings repeat; see the counterexample.) -/
theorem claim3_select_contract (embs : List (List ℚ)) (k : ℕ) (hk : 1 ≤ k) :
    (select (some k) embs).length = min k embs.length ∧
    (select (some k) embs).Sorted (· ≤ ·) ∧
    (∀ j ∈ select (some k) embs, j < embs.length) ∧
    (embs.length ≤ k → select (some k) embs = List.range embs.length) ∧
    (embs.length = 0 → select (some k) embs = []) := by
  refine ⟨select_length embs k hk, ?_, ?_, ?_, ?_⟩
  · rw [select_some_eq embs k hk]
    by_cases hn : embs.length = 0
    · simp [hn, List.Sorted]
    · rw [if_neg hn]
      exact List.sorted_insertionSort _ _
  · intro j hj
    rw [select_some_eq embs k hk] at hj
    by_cases hn : embs.length = 0
    · rw [if_pos hn] at hj
      simp at hj
    · rw [if_neg hn] at hj
      rw [(List.perm_insertionSort _ _).mem_iff] at hj
      exact fps_mem_lt embs _ j hj
  · intro hnk
    rw [select_some_eq embs k hk]
    by_cases hn : embs.length = 0
    · simp [hn, List.length_eq_zero.mp hn]
    · rw [if_neg hn, Nat.min_eq_right hnk, fps_all embs _ (le_refl _)]
      exact (List.sorted_le_range embs.length).insertionSort_eq
  · intro hn
    rw [select_some_eq embs k hk, if_pos hn]

/-- Witness for C3 at `k = 2` and three pairwise-distinct unit rows. -/
theorem claim3_select_contract_witness :
    1 ≤ 2 ∧
    ((select (some 2) [[1, 0], [0, 1], [1, 0]]).length =
        min 2 ([[1, 0], [0, 1], [1, 0]] : List (List ℚ)).length ∧
      (select (some 2) [[1, 0], [0, 1], [1, 0]]).Sorted (· ≤ ·) ∧
      (∀ j ∈ select (some 2) [[1, 0], [0, 1], [1, 0]],
        j < ([[1, 0], [0, 1], [1, 0]] : List (List ℚ)).length) ∧
      (([[1, 0], [0, 1], [1, 0]] : List (List ℚ)).length ≤ 2 →
        select (some 2) [[1, 0], [0, 1], [1, 0]] =
          List.range ([[1, 0], [0, 1], [1, 0]] : List (List ℚ)).length) ∧
      (([[1, 0], [0, 1], [1, 0]] : List (List ℚ)).length = 0 →
        select (some 2) [[1, 0], [0, 1], [1, 0]] = [])) :=
  ⟨by norm_num, claim3_select_contract [[1, 0], [0, 1], [1, 0]] 2 (by norm_num)⟩

/-- C3 counterexample: three identical unit embeddings `[[1], [1], [1]]`
(each a 1-dimensional unit vector) with `k = 2 ≥ 1` yield the selection
`[0, 0]` — `min(k, n) = 2` indices, but not unique as claimed. -/
theorem claim3_selection_not_unique :
    select (some 2) [[1], [1], [1]] = [0, 0] ∧
    ¬ (select (some 2) [[1], [1], [1]]).Nodup := by
  have h : select (some 2) [[1], [1], [1]] = [0, 0] := by
    simp [select, farthestPointSampling, fpsIter, argmax, argmaxGo, dot,
      List.insertionSort, List.orderedInsert]
  refine ⟨h, ?_⟩
  rw [h]
  decide

/-- C10: for every non-empty embedding matrix, `select` with no
configured keyframe count returns a non-empty list of at most `n`
indices: the effective `k = min(default, n)` is clamped to `[1, n]`. -/
theorem claim10_nonempty_selection (embs : List (List ℚ))
    (hn : 0 < embs.length) :
    select none embs ≠ [] ∧
    1 ≤ (select none embs).length ∧
    (select none embs).length ≤ embs.length ∧
    1 ≤ min (defaultK embs.length) embs.length ∧
    min (defaultK embs.length) embs.length ≤ embs.length := by
  have hd := defaultK_pos embs.length
  have hl := select_none_length embs hn
  refine ⟨?_, by omega, by omega, by omega, by omega⟩
  intro h
  rw [h] at hl
  simp at hl
  omega

/-- Witness for C10 at a single unit row. -/
theorem claim10_nonempty_selection_witness :
    0 < ([[1]] : List (List ℚ)).length ∧
    (select none [[1]] ≠ [] ∧
      1 ≤ (select none [[1]]).length ∧
      (select none [[1]]).length ≤ ([[1]] : List (List ℚ)).length ∧
      1 ≤ min (defaultK ([[1]] : List (List ℚ)).length)
            ([[1]] : List (List ℚ)).length ∧
      min (defaultK ([[1]] : List (List ℚ)).length)
            ([[1]] : List (List ℚ)).length ≤
          ([[1]] : List (List ℚ)).length) :=
  ⟨by norm_num, claim10_nonempty_selection [[1]] (by norm_num)⟩

/-! ## Detector lemmas and claim theorems (C4, C5) -/

theorem detectGo_chain (θ : ℚ) (msl : ℕ) :
    ∀ (tl : List (List ℚ)) (i last : ℕ), last < i →
      List.Chain (fun a b => a < b ∧ a + msl ≤ b) last (detectGo θ msl tl i last)
  | [], _, _, _ => by simp [detectGo]
  | [h1], _, _, _ => by simp [detectGo]
  | h1 :: h2 :: rest, i, last, h => by
      unfold detectGo
      by_cases hc : θ ≤ chiSq h1 h2 ∧ msl ≤ i - last
      · rw [if_pos hc]
        exact List.Chain.cons ⟨h, by omega⟩
          (detectGo_chain θ msl (h2 :: rest) (i + 1) i (by omega))
      · rw [if_neg hc]
        exact detectGo_chain θ msl (h2 :: rest) (i + 1) last (by omega)

/-- C4: scene detection returns `[]` on the empty frame sequence; on a
non-empty one it returns a boundary list starting at `0` in which each
consecutive pair strictly increases and is separated by at least
`min_scene_len`. -/
theorem claim4_boundary_invariants (θ : ℚ) (msl : ℕ) (hists : List (List ℚ)) :
    (hists = [] → detect_scenes θ msl hists = []) ∧
    (hists ≠ [] →
      (detect_scenes θ msl hists).head? = some 0 ∧
      List.Chain' (fun a b => a < b ∧ a + msl ≤ b) (detect_scenes θ msl hists)) := by
  constructor
  · intro h
    rw [h]
    rfl
  · intro h
    match hists, h with
    | h1 :: t, _ =>
        refine ⟨rfl, ?_⟩
        show List.Chain _ 0 (detectGo θ msl (h1 :: t) 1 0)
        exact detectGo_chain θ msl (h1 :: t) 1 0 (by omega)

/-- Witness for C4 at a concrete two-histogram input. -/
theorem claim4_boundary_invariants_witness :
    (([[1, 0], [0, 1]] : List (List ℚ)) ≠ [] ∧
      (detect_scenes 1 1 [[1, 0], [0, 1]]).head? = some 0 ∧
      List.Chain' (fun a b => a < b ∧ a + 1 ≤ b) (detect_scenes 1 1 [[1, 0], [0, 1]])) := by
  have h := claim4_boundary_invariants 1 1 [[1, 0], [0, 1]]
  exact ⟨by simp, h.2 (by simp)⟩

theorem detectGo_eq_specGo (θ : ℚ) (msl : ℕ) (hists : List (List ℚ)) :
    ∀ (tl : List (List ℚ)) (i last : ℕ), 1 ≤ i → hists.drop (i - 1) = tl →
      detectGo θ msl tl i last =
        detectSpecGo θ msl hists (List.range' i (tl.length - 1)) last
  | [], i, last, hi, hdrop => by simp [detectGo, detectSpecGo]
  | [h1], i, last, hi, hdrop => by simp [detectGo, detectSpecGo]
  | h1 :: h2 :: rest, i, last, hi, hdrop => by
      have hg1 : hists.getD (i - 1) [] = h1 := by
        have h0 : (hists.drop (i - 1))[0]? = hists[(i - 1) + 0]? :=
          List.getElem?_drop hists (i - 1) 0
        rw [hdrop] at h0
        simp only [List.getElem?_cons_zero, Nat.add_zero] at h0
        simp [List.getD_eq_getElem?_getD, ← h0]
      have hg2 : hists.getD i [] = h2 := by
        have h1' : (hists.drop (i - 1))[1]? = hists[(i - 1) + 1]? :=
          List.getElem?_drop hists (i - 1) 1
        rw [hdrop] at h1'
        have hi1 : i - 1 + 1 = i := by omega
        rw [hi1] at h1'
        simp only [List.getElem?_cons_succ, List.getElem?_cons_zero] at h1'
        simp [List.getD_eq_getElem?_getD, ← h1']
      have hdrop' : hists.drop i = h2 :: rest := by
        have := List.tail_drop hists (i - 1)
        rw [hdrop] at this
        have hi1 : i - 1 + 1 = i := by omega
        rw [hi1] at this
        simpa using this.symm
      have hrange : List.range' i ((h1 :: h2 :: rest).length - 1) =
          i :: List.range' (i + 1) ((h2 :: rest).length - 1) := by
        simp only [List.length_cons]
        rw [show rest.length + 1 + 1 - 1 = rest.length + 1 from by omega]
        rw [List.range'_succ]
        simp
      rw [hrange]
      unfold detectGo detectSpecGo
      rw [hg1, hg2]
      by_cases hc : θ ≤ chiSq h1 h2 ∧ msl ≤ i - last
      · rw [if_pos hc, if_pos hc,
          detectGo_eq_specGo θ msl hists (h2 :: rest) (i + 1) i (by omega)
            (by simpa using hdrop')]
      · rw [if_neg hc, if_neg hc,
          detectGo_eq_specGo θ msl hists (h2 :: rest) (i + 1) last (by omega)
            (by simpa using hdrop')]

/-- C5: the source's scene-detection loop coincides with the spec's
description — boundary `0` unconditionally, then a boundary at `i ≥ 1`
exactly when the chi-square distance of histograms `i-1, i` reaches the
threshold and `i` is at least `min_scene_len` past the last recorded
boundary. -/
theorem claim5_detect_refines_spec (θ : ℚ) (msl : ℕ) (hists : List (List ℚ)) :
    detect_scenes θ msl hists = detectSpec θ msl hists := by
  cases hists with
  | nil => rfl
  | cons h1 t =>
      show 0 :: detectGo θ msl (h1 :: t) 1 0 = detectSpec θ msl (h1 :: t)
      unfold detectSpec
      rw [if_neg (by simp)]
      congr 1
      exact detectGo_eq_specGo θ msl (h1 :: t) (h1 :: t) 1 0 (le_refl 1) (by simp)

/-! ## Farthest-point refinement lemmas (C6) -/

theorem argmaxGo_eq_foldl (f : ℕ → ℚ) :
    ∀ (m s b : ℕ),
      argmaxGo ((List.range' s m).map f) s b (f b) =
        (List.range' s m).foldl (fun b j => if f b < f j then j else b) b
  | 0, s, b => by simp [argmaxGo]
  | m + 1, s, b => by
      rw [List.range'_succ]
      simp only [List.map_cons, List.foldl_cons]
      unfold argmaxGo
      by_cases hc : f b < f s
      · rw [if_pos hc, if_pos hc, argmaxGo_eq_foldl f m (s + 1) s]
      · rw [if_neg hc, if_neg hc, argmaxGo_eq_foldl f m (s + 1) b]

theorem range_eq_cons (n : ℕ) (hn : 0 < n) :
    List.range n = 0 :: List.range' 1 (n - 1) := by
  rw [List.range_eq_range', show n = (n - 1) + 1 from by omega, List.range'_succ]
  simp

theorem argmax_range_map (f : ℕ → ℚ) (n : ℕ) (hn : 0 < n) :
    argmax ((List.range n).map f) = pickLeastMax f (List.range n) := by
  rw [range_eq_cons n hn]
  simp only [List.map_cons, argmax, pickLeastMax]
  exact argmaxGo_eq_foldl f (n - 1) 1 0

theorem pick_foldl (f : ℕ → ℚ) :
    ∀ (m s b : ℕ), b < s →
      (((List.range' s m).foldl (fun b j => if f b < f j then j else b) b = b ∨
          ((List.range' s m).foldl (fun b j => if f b < f j then j else b) b ∈
            List.range' s m)) ∧
        ((List.range' s m).foldl (fun b j => if f b < f j then j else b) b = b ∨
          f b < f ((List.range' s m).foldl (fun b j => if f b < f j then j else b) b)) ∧
        (∀ j ∈ b :: List.range' s m,
          f j ≤ f ((List.range' s m).foldl (fun b j => if f b < f j then j else b) b)) ∧
        (∀ j ∈ b :: List.range' s m,
          j < (List.range' s m).foldl (fun b j => if f b < f j then j else b) b →
            f j < f ((List.range' s m).foldl (fun b j => if f b < f j then j else b) b)))
  | 0, s, b, hb => by
      rw [List.range'_zero]
      refine ⟨Or.inl (by simp), Or.inl (by simp), ?_, ?_⟩
      · intro j hj
        rcases List.mem_cons.1 hj with rfl | hj
        · simp
        · simp at hj
      · intro j hj hlt
        simp only [List.foldl_nil] at hlt
        rcases List.mem_cons.1 hj with rfl | hj
        · omega
        · simp at hj
  | m + 1, s, b, hb => by
      rw [List.range'_succ]
      simp only [List.foldl_cons]
      by_cases hc : f b < f s
      · rw [if_pos hc]
        obtain ⟨hmem, hstep, hmax, hleast⟩ := pick_foldl f m (s + 1) s (by omega)
        set r := (List.range' (s + 1) m).foldl (fun b j => if f b < f j then j else b) s
          with hr
        have hfs : f s ≤ f r := hmax s (by simp)
        refine ⟨?_, ?_, ?_, ?_⟩
        · rcases hmem with h | h
          · exact Or.inr (by rw [h]; simp)
          · exact Or.inr (by simp [h])
        · exact Or.inr (lt_of_lt_of_le hc hfs)
        · intro j hj
          rcases List.mem_cons.1 hj with rfl | hj
          · exact le_of_lt (lt_of_lt_of_le hc hfs)
          · rcases List.mem_cons.1 hj with rfl | hj
            · exact hfs
            · exact hmax j (List.mem_cons_of_mem _ hj)
        · intro j hj hlt
          rcases List.mem_cons.1 hj with rfl | hj
          · exact lt_of_lt_of_le hc hfs
          · exact hleast j hj hlt
      · rw [if_neg hc]
        obtain ⟨hmem, hstep, hmax, hleast⟩ := pick_foldl f m (s + 1) b (by omega)
        set r := (List.range' (s + 1) m).foldl (fun b j => if f b < f j then j else b) b
          with hr
        have hfb : f b ≤ f r := hmax b (by simp)
        have hfs : f s ≤ f b := le_of_not_lt hc
        refine ⟨?_, ?_, ?_, ?_⟩
        · rcases hmem with h | h
          · exact Or.inl h
          · exact Or.inr (by simp [h])
        · exact hstep
        · intro j hj
          rcases List.mem_cons.1 hj with rfl | hj
          · exact hfb
          · rcases List.mem_cons.1 hj with rfl | hj
            · exact le_trans hfs hfb
            · exact hmax j (List.mem_cons_of_mem _ hj)
        · intro j hj hlt
          rcases List.mem_cons.1 hj with rfl | hj
          · exact hleast j (by simp) hlt
          · rcases List.mem_cons.1 hj with rfl | hj
            · -- j = s and s < r: then r ≠ b (as r > s > b), so f b < f r
              have hrb : r ≠ b := by omega
              have : f b < f r := hstep.resolve_left hrb
              exact lt_of_le_of_lt hfs this
            · exact hleast j (List.mem_cons_of_mem _ hj) hlt

theorem pickLeastMax_spec (f : ℕ → ℚ) (n : ℕ) (hn : 0 < n) :
    pickLeastMax f (List.range n) < n ∧
    (∀ j < n, f j ≤ f (pickLeastMax f (List.range n))) ∧
    (∀ j < pickLeastMax f (List.range n), f j < f (pickLeastMax f (List.range n))) := by
  rw [range_eq_cons n hn]
  simp only [pickLeastMax]
  obtain ⟨hmem, _, hmax, hleast⟩ := pick_foldl f (n - 1) 1 0 (by omega)
  set r := (List.range' 1 (n - 1)).foldl (fun b j => if f b < f j then j else b) 0
  have hdom : ∀ j, j < n → j ∈ (0 : ℕ) :: List.range' 1 (n - 1) := by
    intro j hj
    rcases Nat.eq_zero_or_pos j with rfl | hj0
    · simp
    · exact List.mem_cons_of_mem _ (List.mem_range'_1.2 ⟨hj0, by omega⟩)
  refine ⟨?_, ?_, ?_⟩
  · rcases hmem with h | h
    · omega
    · have := List.mem_range'_1.1 h
      omega
  · intro j hj
    exact hmax j (hdom j hj)
  · intro j hj
    have hrn : r < n := by
      rcases hmem with h | h
      · omega
      · have := List.mem_range'_1.1 h
        omega
    exact hleast j (hdom j (by omega)) hj

theorem map_eq_range_map {α β : Type} (l : List α) (g : α → β) (d : α) :
    l.map g = (List.range l.length).map (fun j => g (l.getD j d)) := by
  apply List.ext_getElem
  · simp
  · intro i h1 h2
    simp only [List.getElem_map, List.getElem_range]
    congr 1
    rw [List.getD_eq_getElem?_getD, List.getElem?_eq_getElem (by simpa using h1)]
    rfl

theorem zipWith_min_range_map (f1 f2 : ℕ → ℚ) (n : ℕ) :
    List.zipWith min ((List.range n).map f1) ((List.range n).map f2) =
      (List.range n).map (fun j => min (f1 j) (f2 j)) := by
  rw [List.zipWith_map, List.zipWith_same]

theorem listMinD_append (xs : List ℚ) (y : ℚ) (h : xs ≠ []) :
    listMinD (xs ++ [y]) = min (listMinD xs) y := by
  match xs, h with
  | x :: xs', _ =>
      show listMinD (x :: (xs' ++ [y])) = _
      simp only [listMinD, List.foldl_append, List.foldl_cons, List.foldl_nil]

theorem minDistTo_append (embs : List (List ℚ)) (S : List ℕ) (p j : ℕ)
    (h : S ≠ []) :
    minDistTo embs (S ++ [p]) j =
      min (minDistTo embs S j) (1 - dot (embs.getD j []) (embs.getD p [])) := by
  unfold minDistTo
  rw [List.map_append, List.map_singleton,
    listMinD_append _ _ (by simpa using h)]

theorem minDistTo_singleton (embs : List (List ℚ)) (s j : ℕ) :
    minDistTo embs [s] j = 1 - dot (embs.getD j []) (embs.getD s []) := by
  simp [minDistTo, listMinD]

theorem fpsIter_eq_specGo (embs : List (List ℚ)) (hn : 0 < embs.length) :
    ∀ (t : ℕ) (S : List ℕ) (m : List ℚ), S ≠ [] →
      m = (List.range embs.length).map (minDistTo embs S) →
      fpsIter embs t S m = fpsSpecGo embs embs.length t S
  | 0, S, m, hS, hm => by simp [fpsIter, fpsSpecGo]
  | t + 1, S, m, hS, hm => by
      simp only [fpsIter, fpsSpecGo]
      have hidx : argmax m = pickLeastMax (minDistTo embs S) (List.range embs.length) := by
        rw [hm]
        exact argmax_range_map _ _ hn
      set p := pickLeastMax (minDistTo embs S) (List.range embs.length) with hp
      rw [hidx]
      apply fpsIter_eq_specGo embs hn t (S ++ [p])
      · simp
      · rw [hm, map_eq_range_map embs (fun e => 1 - dot e (embs.getD p [])) [],
          zipWith_min_range_map]
        apply List.map_congr_left
        intro j hj
        rw [minDistTo_append embs S p j hS]

/-! ## Claim theorems: farthest-point sampling step (C6) -/

/-- C6 counterexample: for the unit-vector matrix `[[1], [1], [1]]` with
`n = 3 > k = 2 ≥ 1`, the code returns `[0, 0]` — its second pick is the
already-selected index `0` — while the claimed procedure, whose pick
ranges only over the not-yet-selected indices, returns `[0, 1]`. -/
theorem claim6_pick_not_unselected :
    farthestPointSampling [[1], [1], [1]] 2 = [0, 0] ∧
    fpsClaim [[1], [1], [1]] 2 = [0, 1] := by
  constructor
  · simp [farthestPointSampling, fpsIter, argmax, argmaxGo, dot]
  · show fpsClaimGo [[1], [1], [1]] 3 1 [0] = [0, 1]
    have hr : List.range 3 = [0, 1, 2] := by decide
    simp only [fpsClaimGo, hr]
    norm_num [pickLeastMax, minDistTo, listMinD, dot]

/-- C6 (amended): for `n > k ≥ 1` the code's farthest-point sampling
selects index `0` first and then, `k−1` times, appends the lowest index
among all indices (selected ones included — with distinct unit rows the
selected ones are at distance `0` and never picked, but with duplicated
rows they can be re-picked) whose minimum cosine distance `1 − a·b` to
the already-selected set is largest; the incremental pointwise-minimum
array coincides with that minimum-distance function, and the pick is the
least index attaining the maximum. -/
theorem claim6_fps_refines_spec (embs : List (List ℚ)) (k : ℕ)
    (hk : 1 ≤ k) (hkn : k < embs.length) :
    farthestPointSampling embs k = fpsSpecGo embs embs.length (k - 1) [0] ∧
    (∀ (f : ℕ → ℚ) (n : ℕ), 0 < n →
      pickLeastMax f (List.range n) < n ∧
      (∀ j < n, f j ≤ f (pickLeastMax f (List.range n))) ∧
      (∀ j < pickLeastMax f (List.range n),
        f j < f (pickLeastMax f (List.range n)))) := by
  constructor
  · unfold farthestPointSampling
    rw [if_neg (by omega)]
    apply fpsIter_eq_specGo embs (by omega)
    · simp
    · rw [map_eq_range_map embs (fun e => 1 - dot e (embs.getD 0 [])) []]
      apply List.map_congr_left
      intro j hj
      rw [minDistTo_singleton]
  · intro f n hn
    exact pickLeastMax_spec f n hn

/-- Witness for C6 at `k = 1`, `n = 2`. -/
theorem claim6_fps_refines_spec_witness :
    1 ≤ 1 ∧ 1 < ([[1], [0]] : List (List ℚ)).length ∧
    (farthestPointSampling [[1], [0]] 1 = fpsSpecGo [[1], [0]] ([[1], [0]] : List (List ℚ)).length (1 - 1) [0] ∧
      (∀ (f : ℕ → ℚ) (n : ℕ), 0 < n →
        pickLeastMax f (List.range n) < n ∧
        (∀ j < n, f j ≤ f (pickLeastMax f (List.range n))) ∧
        (∀ j < pickLeastMax f (List.range n),
          f j < f (pickLeastMax f (List.range n))))) :=
  ⟨by norm_num, by norm_num,
    claim6_fps_refines_spec [[1], [0]] 1 (by norm_num) (by norm_num)⟩

/-! ## Pipeline lemmas and claim theorems (C1, C2, C7, C8, C9) -/

theorem emit_ok (cb : Option Callback) (ev : Event) : emit cb ev = Except.ok () := by
  cases cb with
  | none => rfl
  | some f =>
      cases h : f ev <;> simp [emit, h]

theorem emitThen_eq {α : Type} (cb : Option Callback) (ev : Event)
    (rest : List Event × Except String α) :
    emitThen cb ev rest = (ev :: rest.1, rest.2) := by
  unfold emitThen
  rw [emit_ok]

/-- C1 (code behaviour at the failing input): when the video source
cannot be opened, `Pipeline.run` emits "parsing done" and
"collecting frames" events and then the `IOError` raised on first
consumption of the lazy frame generator propagates to the caller — the
designated `"[Pipeline error] failed to open video"` string is never
returned and no terminal failure event is emitted, contradicting the
claim (and the dead `except` branch's evident intent). -/
theorem claim1_open_failure_raises {F : Type} (env : Env F)
    (cb : Option Callback) (h : env.openOk = false) :
    pipelineRun env cb =
      ([("parsing", 0, "opening video"), ("parsing", 1, "done"),
        ("scene_detection", 0, "collecting frames")],
       Except.error "IOError: failed to open video source") := by
  simp [pipelineRun, emitThen_eq, h]

/-- Witness for C1 at the concrete unopenable-source environment. -/
theorem claim1_open_failure_raises_witness :
    envOpenFail.openOk = false ∧
    pipelineRun envOpenFail none =
      ([("parsing", 0, "opening video"), ("parsing", 1, "done"),
        ("scene_detection", 0, "collecting frames")],
       Except.error "IOError: failed to open video source") :=
  ⟨rfl, claim1_open_failure_raises envOpenFail none rfl⟩

theorem scenesGo_cb {F : Type} (env : Env F) (cb : Option Callback)
    (frames : List F) (T : ℕ) :
    ∀ (bs : List ℕ) (i : ℕ),
      scenesGo env cb frames T i bs = scenesGo env none frames T i bs
  | [], _ => rfl
  | start :: rest, i => by
      simp only [scenesGo, emitThen_eq]
      rw [scenesGo_cb env cb frames T rest (i + 1)]

/-- C9: the run — its result and its full event trace — is the same for
every progress callback as for none: `_cb` swallows every callback
error, so a raising progress sink never interrupts the run. -/
theorem claim9_callback_irrelevant {F : Type} (env : Env F)
    (cb : Option Callback) :
    pipelineRun env cb = pipelineRun env none := by
  by_cases hopen : env.openOk = true
  · cases hdet : env.detect env.frames with
    | error e => simp [pipelineRun, emitThen_eq, hopen, hdet]
    | ok boundaries =>
        simp only [pipelineRun, emitThen_eq, hopen, if_true, hdet,
          scenesGo_cb env cb env.frames (max 1 boundaries.length) boundaries 0]
  · simp [pipelineRun, emitThen_eq, hopen]

/-- C2 counterexample: in a run whose captioner raises on the first
scene (video opens, two frames, one scene), the exception escapes
`Pipeline.run` — the claimed "returns a summary or error string, never
raises; captioner errors degrade only the affected scene" is false. -/
theorem claim2_captioner_error_escapes :
    (pipelineRun envCaptionRaises none).2 = Except.error "boom" ∧
    ∀ s : String, (pipelineRun envCaptionRaises none).2 ≠ Except.ok s := by
  have h : (pipelineRun envCaptionRaises none).2 = Except.error "boom" := by
    simp [pipelineRun, emitThen_eq, envCaptionRaises, scenesGo, sceneSlice,
      procScene, selKeys]
  exact ⟨h, fun s hs => by rw [h] at hs; exact Except.noConfusion hs⟩

theorem procScene_ok {F : Type} (env : Env F) (f0 : F) (tl : List F)
    (hcap : ∀ fs, ∃ cs, env.captionBatch fs = Except.ok cs)
    (hsum : ∀ ss, ∃ s, env.summarize ss = Except.ok s)
    (hsel : ∀ fs ks, env.selectIdx fs = Except.ok ks → ∀ j ∈ ks, j < fs.length) :
    ∃ s, procScene env (f0 :: tl) f0 = Except.ok s := by
  have hall : (selKeys env (f0 :: tl)).all
      (fun j => decide (j < (f0 :: tl).length)) = true := by
    rw [List.all_eq_true]
    cases hsel' : env.selectIdx (f0 :: tl) with
    | ok ks =>
        intro j hj
        rw [selKeys, hsel'] at hj
        simpa using hsel _ ks hsel' j hj
    | error e =>
        intro j hj
        rw [selKeys, hsel'] at hj
        simp only [List.mem_singleton] at hj
        subst hj
        simp
  obtain ⟨cs, hcs⟩ := hcap ((selKeys env (f0 :: tl)).map
    (fun j => (f0 :: tl).getD j f0))
  obtain ⟨s, hs⟩ := hsum cs
  refine ⟨s, ?_⟩
  rw [procScene, if_pos hall, hcs]
  exact hs

theorem scenesGo_ok {F : Type} (env : Env F) (cb : Option Callback)
    (frames : List F) (T : ℕ)
    (hcap : ∀ fs, ∃ cs, env.captionBatch fs = Except.ok cs)
    (hsum : ∀ ss, ∃ s, env.summarize ss = Except.ok s)
    (hsel : ∀ fs ks, env.selectIdx fs = Except.ok ks → ∀ j ∈ ks, j < fs.length) :
    ∀ (bs : List ℕ) (i : ℕ),
      ∃ ss, (scenesGo env cb frames T i bs).2 = Except.ok ss
  | [], _ => ⟨[], rfl⟩
  | start :: rest, i => by
      obtain ⟨ss, hss⟩ := scenesGo_ok env cb frames T hcap hsum hsel rest (i + 1)
      simp only [scenesGo, emitThen_eq]
      cases hsf : sceneSlice frames start rest with
      | nil => exact ⟨ss, by simp [hss]⟩
      | cons f0 tail =>
          obtain ⟨s, hs⟩ := procScene_ok env f0 tail hcap hsum hsel
          exact ⟨s :: ss, by simp [hs, hss]⟩

theorem selKeys_invariant {F : Type} (env₁ env₂ : Env F)
    (h4 : env₁.captionBatch = env₂.captionBatch)
    (h5 : env₁.summarize = env₂.summarize)
    (hsel : ∀ sf : List F, selKeys env₁ sf = selKeys env₂ sf)
    (sf : List F) (f0 : F) :
    procScene env₁ sf f0 = procScene env₂ sf f0 := by
  rw [procScene, procScene, hsel sf, h4, h5]

theorem scenesGo_selector_invariant {F : Type} (env₁ env₂ : Env F)
    (cb : Option Callback) (frames : List F) (T : ℕ)
    (h4 : env₁.captionBatch = env₂.captionBatch)
    (h5 : env₁.summarize = env₂.summarize)
    (hsel : ∀ sf : List F, selKeys env₁ sf = selKeys env₂ sf) :
    ∀ (bs : List ℕ) (i : ℕ),
      scenesGo env₁ cb frames T i bs = scenesGo env₂ cb frames T i bs
  | [], _ => rfl
  | start :: rest, i => by
      simp only [scenesGo, emitThen_eq,
        selKeys_invariant env₁ env₂ h4 h5 hsel,
        scenesGo_selector_invariant env₁ env₂ cb frames T h4 h5 hsel rest (i + 1)]

theorem pipelineRun_selector_invariant {F : Type} (env₁ env₂ : Env F)
    (cb : Option Callback)
    (h1 : env₁.openOk = env₂.openOk) (h2 : env₁.frames = env₂.frames)
    (h3 : env₁.detect = env₂.detect)
    (h4 : env₁.captionBatch = env₂.captionBatch)
    (h5 : env₁.summarize = env₂.summarize)
    (hsel : ∀ sf : List F, selKeys env₁ sf = selKeys env₂ sf) :
    pipelineRun env₁ cb = pipelineRun env₂ cb := by
  have hGo : ∀ (T : ℕ) (bs : List ℕ) (i : ℕ),
      scenesGo env₁ cb env₂.frames T i bs = scenesGo env₂ cb env₂.frames T i bs :=
    fun T bs i =>
      scenesGo_selector_invariant env₁ env₂ cb env₂.frames T h4 h5 hsel bs i
  simp only [pipelineRun, emitThen_eq, h1, h2, h3, h5, hGo]

/-- C2 (amended): `Pipeline.run` returns a summary string or an explicit
error string — no exception escapes — provided the video opens, the
captioner and summarizer never raise, and the selector returns in-range
indices whenever it succeeds; a selector that raises is caught locally
and behaves exactly as one that selects the fallback keyframe `[0]`.
(Captioner or summarizer exceptions, and the open failure surfacing at
frame collection, do propagate; see the counterexample.) -/
theorem claim2_run_total_amended {F : Type} (env : Env F)
    (cb : Option Callback) (hopen : env.openOk = true)
    (hcap : ∀ fs, ∃ cs, env.captionBatch fs = Except.ok cs)
    (hsum : ∀ ss, ∃ s, env.summarize ss = Except.ok s)
    (hsel : ∀ fs ks, env.selectIdx fs = Except.ok ks → ∀ j ∈ ks, j < fs.length) :
    (∃ s, (pipelineRun env cb).2 = Except.ok s) ∧
    (∀ msg,
      pipelineRun { env with selectIdx := fun _ => Except.error msg } cb =
        pipelineRun { env with selectIdx := fun _ => Except.ok [0] } cb) := by
  constructor
  · cases hdet : env.detect env.frames with
    | error e =>
        exact ⟨"[Pipeline error] scene detection failed",
          by simp [pipelineRun, emitThen_eq, hopen, hdet]⟩
    | ok boundaries =>
        obtain ⟨ss, hss⟩ :=
          scenesGo_ok env cb env.frames (max 1 boundaries.length) hcap hsum hsel
            boundaries 0
        cases ss with
        | nil => exact ⟨"", by simp [pipelineRun, emitThen_eq, hopen, hdet, hss]⟩
        | cons s0 srest =>
            obtain ⟨fin, hfin⟩ := hsum (s0 :: srest)
            exact ⟨fin, by simp [pipelineRun, emitThen_eq, hopen, hdet, hss, hfin]⟩
  · intro msg
    exact pipelineRun_selector_invariant _ _ cb rfl rfl rfl rfl rfl (fun _ => rfl)

/-- Witness for C2 at the concrete well-behaved environment. -/
theorem claim2_run_total_amended_witness :
    envAllOk.openOk = true ∧
    (∀ fs, ∃ cs, envAllOk.captionBatch fs = Except.ok cs) ∧
    (∀ ss, ∃ s, envAllOk.summarize ss = Except.ok s) ∧
    (∀ fs ks, envAllOk.selectIdx fs = Except.ok ks → ∀ j ∈ ks, j < fs.length) ∧
    ((∃ s, (pipelineRun envAllOk none).2 = Except.ok s) ∧
      (∀ msg,
        pipelineRun { envAllOk with selectIdx := fun _ => Except.error msg } none =
          pipelineRun { envAllOk with selectIdx := fun _ => Except.ok [0] } none)) := by
  have hcap : ∀ fs, ∃ cs, envAllOk.captionBatch fs = Except.ok cs :=
    fun fs => ⟨fs.map (fun _ => "c"), rfl⟩
  have hsum : ∀ ss, ∃ s, envAllOk.summarize ss = Except.ok s :=
    fun ss => ⟨ss.headD "", rfl⟩
  have hsel : ∀ fs ks, envAllOk.selectIdx fs = Except.ok ks →
      ∀ j ∈ ks, j < fs.length := by
    intro fs ks hks j hj
    simp only [envAllOk, Except.ok.injEq] at hks
    subst hks
    simp at hj
  exact ⟨rfl, hcap, hsum, hsel,
    claim2_run_total_amended envAllOk none rfl hcap hsum hsel⟩

/-- C8: when the scene-processing stage yields no scene summaries — in
particular for zero-frame input — `Pipeline.run` returns the empty
string right after the aggregation stage begins: the trace ends with the
"no scenes" aggregation event (no "finished" event), and the result is
`""` whatever the summarizer would do on an aggregate. -/
theorem claim8_no_summaries_empty_result {F : Type} (env : Env F)
    (cb : Option Callback) (bs : List ℕ)
    (hopen : env.openOk = true)
    (hdet : env.detect env.frames = Except.ok bs)
    (hsc : (scenesGo env cb env.frames (max 1 bs.length) 0 bs).2 = Except.ok []) :
    pipelineRun env cb =
      (("parsing", 0, "opening video") :: ("parsing", 1, "done") ::
        ("scene_detection", 0, "collecting frames") ::
        ("scene_detection", 1, "found " ++ toString bs.length ++ " scene(s)") ::
        ((scenesGo env cb env.frames (max 1 bs.length) 0 bs).1 ++
          [("aggregation", 0, "aggregating scene summaries"),
            ("aggregation", 1, "no scenes")]),
       Except.ok "") := by
  simp [pipelineRun, emitThen_eq, hopen, hdet, hsc]

/-- Witness for C8 at the zero-frame environment with boundary list
`[0]` (the lone scene slice is empty, so no summary is produced). -/
theorem claim8_no_summaries_empty_result_witness :
    envNoFrames.openOk = true ∧
    envNoFrames.detect envNoFrames.frames = Except.ok [0] ∧
    (scenesGo envNoFrames none envNoFrames.frames (max 1 [0].length) 0 [0]).2 =
      Except.ok [] ∧
    pipelineRun envNoFrames none =
      (("parsing", 0, "opening video") :: ("parsing", 1, "done") ::
        ("scene_detection", 0, "collecting frames") ::
        ("scene_detection", 1, "found " ++ toString [0].length ++ " scene(s)") ::
        ((scenesGo envNoFrames none envNoFrames.frames (max 1 [0].length) 0 [0]).1 ++
          [("aggregation", 0, "aggregating scene summaries"),
            ("aggregation", 1, "no scenes")]),
       Except.ok "") := by
  have hsc : (scenesGo envNoFrames none envNoFrames.frames (max 1 [0].length) 0 [0]).2 =
      Except.ok [] := by
    simp [scenesGo, emitThen_eq, envNoFrames, sceneSlice]
  exact ⟨rfl, rfl, hsc,
    claim8_no_summaries_empty_result envNoFrames none [0] rfl rfl hsc⟩

theorem scenePP_succ (T i0 m : ℕ) :
    scenePP T i0 (m + 1) =
      ("scene_" ++ toString i0 ++ "_start", (i0 : ℚ) / (T : ℚ)) ::
        ("scene_" ++ toString i0 ++ "_done", ((i0 : ℚ) + 1) / (T : ℚ)) ::
          scenePP T (i0 + 1) m := by
  rw [scenePP, List.range'_succ]
  simp [scenePP]

theorem scenesGo_trace_prefix {F : Type} (env : Env F) (cb : Option Callback)
    (frames : List F) (T : ℕ) :
    ∀ (bs : List ℕ) (i : ℕ),
      ((scenesGo env cb frames T i bs).1.map (fun e => (e.1, e.2.1))) <+:
        scenePP T i bs.length
  | [], i => by simp [scenesGo, scenePP]
  | start :: rest, i => by
      have ih := scenesGo_trace_prefix env cb frames T rest (i + 1)
      have hdiv : (i : ℚ) / (T : ℚ) + 1 / (T : ℚ) = ((i : ℚ) + 1) / (T : ℚ) :=
        div_add_div_same _ _ _
      simp only [scenesGo, emitThen_eq, List.length_cons, scenePP_succ]
      cases hsf : sceneSlice frames start rest with
      | nil =>
          simp only [List.map_cons, hdiv]
          exact List.cons_prefix_cons.2 ⟨rfl, List.cons_prefix_cons.2 ⟨rfl, ih⟩⟩
      | cons f0 tl =>
          cases hproc : procScene env (f0 :: tl) f0 with
          | error e =>
              simp only [hproc, List.map_cons, List.map_nil]
              exact List.cons_prefix_cons.2 ⟨rfl, List.nil_prefix⟩
          | ok s =>
              simp only [hproc, List.map_cons, hdiv]
              exact List.cons_prefix_cons.2 ⟨rfl, List.cons_prefix_cons.2 ⟨rfl, ih⟩⟩

theorem scenePP_bounds (T : ℕ) :
    ∀ (m i0 : ℕ), i0 + m ≤ T →
      (∀ p ∈ (scenePP T i0 m).map Prod.snd, (i0 : ℚ) / (T : ℚ) ≤ p ∧ p ≤ 1) ∧
      List.Chain' (· ≤ ·) ((scenePP T i0 m).map Prod.snd)
  | 0, i0, h => by simp [scenePP]
  | m + 1, i0, h => by
      obtain ⟨ihb, ihc⟩ := scenePP_bounds T m (i0 + 1) (by omega)
      have hT : (0 : ℚ) < (T : ℚ) := by
        exact_mod_cast (by omega : 0 < T)
      have h1 : (i0 : ℚ) / T ≤ ((i0 : ℚ) + 1) / T :=
        (div_le_div_iff_of_pos_right hT).2 (by linarith)
      have h2 : ((i0 : ℚ) + 1) / T ≤ 1 := by
        rw [div_le_one hT]
        exact_mod_cast (by omega : i0 + 1 ≤ T)
      have hlow : ((i0 + 1 : ℕ) : ℚ) / T = ((i0 : ℚ) + 1) / T := by
        push_cast
        ring
      rw [scenePP_succ]
      simp only [List.map_cons]
      constructor
      · intro p hp
        rcases List.mem_cons.1 hp with rfl | hp
        · exact ⟨le_refl _, le_trans h1 h2⟩
        · rcases List.mem_cons.1 hp with rfl | hp
          · exact ⟨h1, h2⟩
          · obtain ⟨hl, hr⟩ := ihb p hp
            rw [hlow] at hl
            exact ⟨le_trans h1 hl, hr⟩
      · refine List.chain'_cons.2 ⟨h1, ?_⟩
        refine List.chain'_cons'.2 ⟨?_, ihc⟩
        intro y hy
        have hmem : y ∈ (scenePP T (i0 + 1) m).map Prod.snd :=
          List.mem_of_mem_head? hy
        obtain ⟨hl, _⟩ := ihb y hmem
        rw [hlow] at hl
        exact hl

/-- C7: every event emitted by the scene-processing loop follows the
canonical schedule — scene `i` starts at percent `i / total_scenes` and
completes at `(i+1) / total_scenes` with `total_scenes = max(1, len(B))`
— as a prefix of it (a captioner/summarizer abort only truncates it);
consequently all scene-stage percents lie in `[0, 1]` and are
non-decreasing. -/
theorem claim7_progress_percents {F : Type} (env : Env F)
    (cb : Option Callback) (frames : List F) (B : List ℕ) :
    ((scenesGo env cb frames (max 1 B.length) 0 B).1.map
        (fun e => (e.1, e.2.1))) <+: scenePP (max 1 B.length) 0 B.length ∧
    (∀ e ∈ (scenesGo env cb frames (max 1 B.length) 0 B).1,
      0 ≤ e.2.1 ∧ e.2.1 ≤ 1) ∧
    List.Chain' (· ≤ ·)
      ((scenesGo env cb frames (max 1 B.length) 0 B).1.map (fun e => e.2.1)) := by
  have hpre := scenesGo_trace_prefix env cb frames (max 1 B.length) B 0
  obtain ⟨hb, hc⟩ := scenePP_bounds (max 1 B.length) B.length 0 (by omega)
  refine ⟨hpre, ?_, ?_⟩
  · intro e he
    have h1 : (e.1, e.2.1) ∈ scenePP (max 1 B.length) 0 B.length :=
      hpre.subset (List.mem_map_of_mem _ he)
    have h2 := hb e.2.1 (List.mem_map_of_mem Prod.snd h1)
    have h0 : ((0 : ℕ) : ℚ) / ((max 1 B.length : ℕ) : ℚ) = 0 := by simp
    rw [h0] at h2
    exact h2
  · have hmap :
        (scenesGo env cb frames (max 1 B.length) 0 B).1.map (fun e => e.2.1) =
          ((scenesGo env cb frames (max 1 B.length) 0 B).1.map
            (fun e => (e.1, e.2.1))).map Prod.snd := by
      rw [List.map_map]
      rfl
    rw [hmap]
    exact hc.sublist (hpre.sublist.map Prod.snd)

end SageVision
